import Mathlib

/-!
Verification of the `rustalize` declaration parser (`src/lib.rs`).

The Rust source is shallowly embedded: every `impl Parser` function is
translated to a Lean function over `String` (Rust byte indices become
character indices, which agree with the source on every delimiter search
because delimiters are single ASCII characters and slices taken between two
character positions contain the same characters in both models).  Rust
`Result<T, String>` becomes `Except String T`.  The mutual recursion between
`Parser::parse` and `Parser::parse_enum` (through enum-variant payloads) is
realised with an explicit fuel parameter that strictly exceeds the input
length; the fuel is irrelevant because every recursive call happens on a
strictly shorter string (proved below for the type parser, whose recursion
depth matters for the stated claims).
-/

/-! ## Character-list utilities mirroring the Rust `str` operations -/

/-- Model of Rust `str::trim` on the left: drop leading whitespace. -/
def ltrimC (l : List Char) : List Char := l.dropWhile Char.isWhitespace

/-- Model of Rust `str::trim` on the right: drop trailing whitespace. -/
def rtrimC (l : List Char) : List Char := (l.reverse.dropWhile Char.isWhitespace).reverse

/-- Model of Rust `str::trim`: drop leading and trailing whitespace. -/
def trimC (l : List Char) : List Char := rtrimC (ltrimC l)

/-- `s.trim()` on strings. -/
def strTrim (s : String) : String := String.mk (trimC s.data)

/-- `s.starts_with(pre)` for a string pattern. -/
def strStartsWith (s pre : String) : Bool := pre.data.isPrefixOf s.data

/-- `s.starts_with(c)` for a single-character pattern. -/
def strStartsWithChar (s : String) (c : Char) : Bool :=
  match s.data with
  | [] => false
  | d :: _ => d == c

/-- `s.ends_with(c)` for a single-character pattern. -/
def strEndsWithChar (s : String) (c : Char) : Bool :=
  match s.data.getLast? with
  | none => false
  | some d => d == c

/-- Rust `str::split` on a character predicate: splits at every matching
character, keeping empty pieces, and always yields at least one piece. -/
def splitOnP (p : Char → Bool) : List Char → List (List Char)
  | [] => [[]]
  | c :: rest =>
    if p c then [] :: splitOnP p rest
    else
      match splitOnP p rest with
      | [] => [[c]]
      | piece :: pieces => (c :: piece) :: pieces

/-- String-valued version of `splitOnP`. -/
def splitStr (p : Char → Bool) (s : String) : List String :=
  (splitOnP p s.data).map String.mk

/-- Rust `str::split_whitespace`: maximal non-whitespace runs. -/
def wordsOf (s : String) : List String :=
  ((splitOnP (fun c => c.isWhitespace) s.data).filter (fun w => w ≠ [])).map String.mk

/-- Rust `str::trim_end_matches(c)`: drop every trailing occurrence of `c`. -/
def dropTrailing (c : Char) (l : List Char) : List Char :=
  (l.reverse.dropWhile (· == c)).reverse

/-- Rust `str::trim_start_matches(c)`: drop every leading occurrence of `c`. -/
def dropLeading (c : Char) (l : List Char) : List Char := l.dropWhile (· == c)

/-- Rust `str::find(c)`: index of the first occurrence of `c`. -/
def findIdxC (c : Char) : List Char → Option Nat
  | [] => none
  | d :: rest => if d == c then some 0 else (findIdxC c rest).map (· + 1)

/-- Rust `str::rfind(c)`: index of the last occurrence of `c`. -/
def rfindIdxC (c : Char) (l : List Char) : Option Nat :=
  match findIdxC c l.reverse with
  | none => none
  | some i => some (l.length - 1 - i)

/-- Rust `str::contains(c)` for a single character. -/
def containsC (s : String) (c : Char) : Bool := s.data.any (· == c)

/-- Rust `str::contains("->")`. -/
def containsArrow : List Char → Bool
  | [] => false
  | '-' :: '>' :: _ => true
  | _ :: rest => containsArrow rest

/-- Rust `str::split("->")`: split at every (non-overlapping, leftmost)
occurrence of the two-character arrow. -/
def splitOnArrow : List Char → List (List Char)
  | [] => [[]]
  | '-' :: '>' :: rest => [] :: splitOnArrow rest
  | c :: rest =>
    match splitOnArrow rest with
    | [] => [[c]]
    | piece :: pieces => (c :: piece) :: pieces

/-- Rust slice `&l[a..b]` (character positions). -/
def sliceC (l : List Char) (a b : Nat) : List Char := (l.drop a).take (b - a)

/-- The Rust `Iterator::collect::<Result<Vec<_>, _>>` pattern: map a fallible
function over a list, stopping at the first error. -/
def mapExcept (f : α → Except String β) : List α → Except String (List β)
  | [] => .ok []
  | a :: l =>
    match f a with
    | .error e => .error e
    | .ok b =>
      match mapExcept f l with
      | .error e => .error e
      | .ok bs => .ok (b :: bs)

/-- The shared `split / trim each piece / drop empty pieces` pattern used by
`parse_trait` (on `;`) and `parse_enum` (on `,`). -/
def splitTrimNonempty (sep : Char) (s : String) : List String :=
  ((splitOnP (· == sep) s.data).map (fun w => strTrim (String.mk w))).filter (fun w => w ≠ "")

/-! ## The AST data model (`AstNode` and friends from `src/lib.rs`) -/

/-- `enum TypeNode` — `Box` indirections are dropped (Lean trees are finite). -/
inductive TypeNode where
  | Simple : String → TypeNode
  | Reference : TypeNode → TypeNode
  | Generic : String → List TypeNode → TypeNode

/-- `struct ParamNode`. -/
structure ParamNode where
  name : String
  param_type : TypeNode

/-- `struct FieldNode`. -/
structure FieldNode where
  name : String
  field_type : TypeNode

/-- `struct MethodNode`. -/
structure MethodNode where
  name : String
  params : List ParamNode
  return_type : Option TypeNode

/-- `struct TraitNode`. -/
structure TraitNode where
  name : String
  methods : List MethodNode

/-- `struct StructNode`. -/
structure StructNode where
  name : String
  fields : List FieldNode

mutual
/-- `enum AstNode`. -/
inductive AstNode where
  | Trait : TraitNode → AstNode
  | Struct : StructNode → AstNode
  | Enum : EnumNode → AstNode

/-- `struct EnumNode`. -/
inductive EnumNode where
  | mk : (name : String) → (variants : List VariantNode) → EnumNode

/-- `struct VariantNode`. -/
inductive VariantNode where
  | mk : (name : String) → (associated_data : Option AstNode) → VariantNode
end

mutual
/-- `TypeNode::display` (the type-expression formatter used by the tree
renderer): `Simple` prints its name, `Reference` prepends `&`, `Generic`
prints `name<arg, arg, ...>` via `format!("{}<{}>", name, args.join(", "))`. -/
def TypeNode.display : TypeNode → String
  | .Simple name => name
  | .Reference inner => "&" ++ TypeNode.display inner
  | .Generic name args =>
      name ++ "<" ++ String.intercalate ", " (TypeNode.displayArgs args) ++ ">"

/-- `args.iter().map(|arg| arg.display()).collect::<Vec<String>>()`. -/
def TypeNode.displayArgs : List TypeNode → List String
  | [] => []
  | t :: ts => TypeNode.display t :: TypeNode.displayArgs ts
end

/-! ## The parser (`impl Parser`) -/

namespace Parser

/-- `Parser::parse_type`, with a fuel parameter standing for the call stack.
Branches, in source order: leading `&` (strip all leading ampersands —
`trim_start_matches` — trim, recurse, wrap in `Reference`); enclosing
`[`…`]` (parse the trimmed interior, wrap as `Generic "[]"`); both `<` and
`>` present (name before the first `<`; argument text is the piece between
the first and second `<` with trailing `>` stripped and trimmed, split on
`,`, each piece trimmed and recursively parsed); otherwise `Simple`.
The fuel branch is unreachable when the fuel exceeds the input length
(`parse_typeF_congr`, `parse_typeF_total` below). -/
def parse_typeF : Nat → String → Except String TypeNode
  | 0, _ => .error "recursion limit exceeded"
  | n+1, input =>
    if strStartsWithChar input '&' then
      match parse_typeF n (strTrim (String.mk (dropLeading '&' input.data))) with
      | .ok inner_type => .ok (.Reference inner_type)
      | .error e => .error e
    else if strStartsWithChar input '[' && strEndsWithChar input ']' then
      match parse_typeF n (strTrim (String.mk (sliceC input.data 1 (input.data.length - 1)))) with
      | .ok inner_type => .ok (.Generic "[]" [inner_type])
      | .error e => .error e
    else if containsC input '<' && containsC input '>' then
      let name := strTrim (String.mk ((splitOnP (· == '<') input.data).getD 0 []))
      let args_str := strTrim (String.mk (dropTrailing '>' ((splitOnP (· == '<') input.data).getD 1 [])))
      match mapExcept (fun arg => parse_typeF n (strTrim arg)) (splitStr (· == ',') args_str) with
      | .ok args => .ok (.Generic name args)
      | .error e => .error e
    else .ok (.Simple input)

/-- `Parser::parse_type` proper: the fuel `input.len() + 1` strictly exceeds
every recursion depth reachable from `input`. -/
def parse_type (input : String) : Except String TypeNode :=
  parse_typeF (input.data.length + 1) input

/-- The parameter-classification closure inside `Parser::parse_params`:
trim the fragment; the literal `&self` and `self` receive their receiver
types; anything else must split into exactly two `:`-separated pieces. -/
def parse_param (param : String) : Except String ParamNode :=
  let param := strTrim param
  if param = "&self" then
    .ok ⟨"&self", .Reference (.Simple "self")⟩
  else if param = "self" then
    .ok ⟨"self", .Simple "self"⟩
  else
    let parts := splitOnP (· == ':') param.data
    if parts.length ≠ 2 then .error "Invalid parameter format"
    else
      match parse_type (strTrim (String.mk (parts.getD 1 []))) with
      | .ok t => .ok ⟨strTrim (String.mk (parts.getD 0 [])), t⟩
      | .error e => .error e

/-- `Parser::parse_params`: whitespace-only input yields no parameters,
otherwise split on `,` and classify each fragment. -/
def parse_params (input : String) : Except String (List ParamNode) :=
  if strTrim input = "" then .ok []
  else mapExcept parse_param (splitStr (· == ',') input)

/-- The field-parsing closure inside `Parser::parse_struct`: split the
fragment on `:`, demand exactly two pieces, trim the name, parse the type. -/
def parse_field (field_str : String) : Except String FieldNode :=
  let parts := splitOnP (· == ':') field_str.data
  if parts.length ≠ 2 then .error "Invalid field format"
  else
    match parse_type (strTrim (String.mk (parts.getD 1 []))) with
    | .ok t => .ok ⟨strTrim (String.mk (parts.getD 0 [])), t⟩
    | .error e => .error e

/-- `Parser::parse_method`: trim; split on `(` and `)`; the piece before the
first parenthesis must whitespace-split into at least two words (word 1 is
the name); the piece between parentheses feeds `parse_params`; text after a
`->` (trimmed, trailing `;` stripped) is the return type. -/
def parse_method (input : String) : Except String MethodNode :=
  let input := strTrim input
  let parts := splitOnP (fun c => c == '(' || c == ')') input.data
  if parts.length < 2 then .error "Invalid method format"
  else
    match (wordsOf (String.mk (parts.getD 0 []))).get? 1 with
    | none => .error "Invalid method name"
    | some name =>
      match parse_params (String.mk (parts.getD 1 [])) with
      | .error e => .error e
      | .ok params =>
        if containsArrow input.data then
          match parse_type (String.mk (dropTrailing ';' (trimC ((splitOnArrow input.data).getD 1 [])))) with
          | .ok t => .ok ⟨name, params, some t⟩
          | .error e => .error e
        else .ok ⟨name, params, none⟩

/-- `Parser::parse_trait`: name is the third whitespace word; body lies
between the first `{` and the last `}`; split the body on `;`, trim, drop
empty pieces, parse each fragment as a method. -/
def parse_trait (input : String) : Except String AstNode :=
  match (wordsOf input).get? 2 with
  | none => .error "Invalid trait definition"
  | some trait_name =>
    match findIdxC '\x7b' input.data with
    | none => .error "Missing trait body"
    | some body_start =>
      match rfindIdxC '\x7d' input.data with
      | none => .error "Missing closing brace"
      | some body_end =>
        if body_end ≤ body_start then .error "Invalid trait body"
        else
          let body_content := strTrim (String.mk (sliceC input.data (body_start + 1) body_end))
          match mapExcept parse_method (splitTrimNonempty ';' body_content) with
          | .ok methods => .ok (.Trait ⟨trait_name, methods⟩)
          | .error e => .error e

/-- `Parser::parse_struct`: name is the third whitespace word; body lies
between the first `{` and the last `}`; split the body on `,` (without
dropping empty pieces) and parse every fragment as a field. -/
def parse_struct (input : String) : Except String AstNode :=
  match (wordsOf input).get? 2 with
  | none => .error "Invalid struct definition"
  | some struct_name =>
    match findIdxC '\x7b' input.data with
    | none => .error "Missing struct body"
    | some body_start =>
      match rfindIdxC '\x7d' input.data with
      | none => .error "Missing closing brace"
      | some body_end =>
        if body_end ≤ body_start then .error "Invalid struct body"
        else
          let body_content := strTrim (String.mk (sliceC input.data (body_start + 1) body_end))
          match mapExcept parse_field (splitStr (· == ',') body_content) with
          | .ok fields => .ok (.Struct ⟨struct_name, fields⟩)
          | .error e => .error e

/-- The variant-classification step of `Parser::parse_enum`, abstracted over
the recursive re-entry into `Parser::parse` (`recur`): a fragment containing
both `(` and `)` is a payload variant — name before the first `(`, payload
between the first `(` and the stripped trailing `)`s, re-parsed by `recur` —
and anything else is a unit variant. -/
def parse_variant_with (recur : String → Except String AstNode) (variant_str : String) :
    Except String VariantNode :=
  if containsC variant_str '(' && containsC variant_str ')' then
    let name := strTrim (String.mk ((splitOnP (· == '(') variant_str.data).getD 0 []))
    let data_str := String.mk (dropTrailing ')' ((splitOnP (· == '(') variant_str.data).getD 1 []))
    match recur data_str with
    | .ok associated_ast => .ok ⟨name, some associated_ast⟩
    | .error e => .error e
  else .ok ⟨variant_str, none⟩

/-- `Parser::parse_enum`, abstracted over the recursive re-entry into
`Parser::parse`: name is the third whitespace word; body lies between the
first `{` and the last `}`; split on `,`, trim, drop empty pieces, classify
each fragment with `parse_variant_with`. -/
def parse_enum_with (recur : String → Except String AstNode) (input : String) :
    Except String AstNode :=
  match (wordsOf input).get? 2 with
  | none => .error "Invalid enum definition"
  | some enum_name =>
    match findIdxC '\x7b' input.data with
    | none => .error "Missing enum body"
    | some body_start =>
      match rfindIdxC '\x7d' input.data with
      | none => .error "Missing closing brace"
      | some body_end =>
        if body_end ≤ body_start then .error "Invalid enum body"
        else
          let body_content := strTrim (String.mk (sliceC input.data (body_start + 1) body_end))
          match mapExcept (parse_variant_with recur) (splitTrimNonempty ',' body_content) with
          | .ok variants => .ok (.Enum (.mk enum_name variants))
          | .error e => .error e

/-- `Parser::parse` with fuel: trim the input, dispatch on the literal
prefixes `pub trait` / `pub struct` / `pub enum` in that order, otherwise
fail with the unsupported-construct error.  Each enum-variant payload
re-enters the dispatcher with one unit of fuel consumed; payloads are
strictly shorter than their enum text, so fuel `input.len() + 1` never runs
out. -/
def parseF : Nat → String → Except String AstNode
  | 0, _ => .error "recursion limit exceeded"
  | n+1, input =>
    let t := strTrim input
    if strStartsWith t "pub trait" then parse_trait t
    else if strStartsWith t "pub struct" then parse_struct t
    else if strStartsWith t "pub enum" then parse_enum_with (fun s => parseF n s) t
    else .error "Unsupported or invalid Rust construct"

/-- `Parser::parse`, the public entry point. -/
def parse (input : String) : Except String AstNode :=
  parseF (input.data.length + 1) input

/-- `Parser::parse_enum` proper (payloads re-enter the full `parse`). -/
def parse_enum (input : String) : Except String AstNode :=
  parse_enum_with parse input

/-- The variant-classification step with the full `parse` as re-entry. -/
def parse_variant (variant_str : String) : Except String VariantNode :=
  parse_variant_with parse variant_str

/-- `Parser::parse_tuple_variant` (dead code in the source: defined but never
called): split on `,`, trim, drop empty pieces, number the pieces `"0"`,
`"1"`, … and parse each as a positional field type of an anonymous struct. -/
def parse_tuple_variant (input : String) : Except String AstNode :=
  let pieces := ((splitOnP (· == ',') input.data).map (fun w => strTrim (String.mk w))).filter (fun w => w ≠ "")
  match mapExcept (fun iw => match parse_type iw.2 with
      | .ok t => .ok (FieldNode.mk (toString iw.1) t)
      | .error e => .error e) pieces.enum with
  | .ok fields => .ok (.Struct ⟨"", fields⟩)
  | .error e => .error e

end Parser

/-! ## Length bookkeeping for the recursion -/

lemma length_dropWhile_le (p : Char → Bool) (l : List Char) :
    (l.dropWhile p).length ≤ l.length := by
  induction l with
  | nil => simp [List.dropWhile]
  | cons c rest ih =>
    rw [List.dropWhile_cons]
    by_cases h : p c = true
    · simp only [h, if_true]
      simp only [List.length_cons]
      omega
    · simp [h]

lemma length_ltrimC_le (l : List Char) : (ltrimC l).length ≤ l.length :=
  length_dropWhile_le _ l

lemma length_rtrimC_le (l : List Char) : (rtrimC l).length ≤ l.length := by
  have h := length_dropWhile_le Char.isWhitespace l.reverse
  simp only [rtrimC, List.length_reverse]
  simpa using h

lemma length_trimC_le (l : List Char) : (trimC l).length ≤ l.length :=
  le_trans (length_rtrimC_le (ltrimC l)) (length_ltrimC_le l)

lemma length_dropTrailing_le (c : Char) (l : List Char) :
    (dropTrailing c l).length ≤ l.length := by
  have h := length_dropWhile_le (· == c) l.reverse
  simp only [dropTrailing, List.length_reverse]
  simpa using h

lemma strTrim_data (s : String) : (strTrim s).data = trimC s.data := rfl

lemma splitOnP_ne_nil (p : Char → Bool) (l : List Char) : splitOnP p l ≠ [] := by
  cases l with
  | nil => simp [splitOnP]
  | cons c rest =>
    simp only [splitOnP]
    by_cases h : p c = true
    · simp [h]
    · simp only [h, if_false]
      rcases hs : splitOnP p rest with _ | ⟨piece, pieces⟩ <;> simp

lemma splitOnP_cons_pos {p : Char → Bool} {c : Char} {rest : List Char} (h : p c = true) :
    splitOnP p (c :: rest) = [] :: splitOnP p rest := by
  conv_lhs => unfold splitOnP
  rw [if_pos h]

lemma splitOnP_cons_neg {p : Char → Bool} {c : Char} {rest piece : List Char}
    {pieces : List (List Char)} (h : ¬ p c = true) (hs : splitOnP p rest = piece :: pieces) :
    splitOnP p (c :: rest) = (c :: piece) :: pieces := by
  conv_lhs => unfold splitOnP
  rw [if_neg h, hs]

lemma length_le_of_mem_splitOnP {p : Char → Bool} :
    ∀ {l q : List Char}, q ∈ splitOnP p l → q.length ≤ l.length := by
  intro l
  induction l with
  | nil =>
    intro q hq
    simp [splitOnP] at hq
    simp [hq]
  | cons c rest ih =>
    intro q hq
    by_cases h : p c = true
    · rw [splitOnP_cons_pos h, List.mem_cons] at hq
      rcases hq with h1 | h1
      · simp [h1]
      · have := ih h1
        simp only [List.length_cons]
        omega
    · rcases hs : splitOnP p rest with _ | ⟨piece, pieces⟩
      · exact absurd hs (splitOnP_ne_nil p rest)
      · rw [splitOnP_cons_neg h hs, List.mem_cons] at hq
        rcases hq with h1 | h1
        · have hp : piece ∈ splitOnP p rest := by
            rw [hs]; exact List.mem_cons_self _ _
          have := ih hp
          subst h1
          simp only [List.length_cons]
          omega
        · have hp : q ∈ splitOnP p rest := by
            rw [hs]; exact List.mem_cons_of_mem _ h1
          have := ih hp
          simp only [List.length_cons]
          omega

lemma splitOnP_getD_one_length_lt {p : Char → Bool} :
    ∀ {l : List Char}, l.any p = true → ((splitOnP p l).getD 1 []).length < l.length := by
  intro l
  induction l with
  | nil => intro h; simp at h
  | cons c rest ih =>
    intro h
    by_cases hc : p c = true
    · rw [splitOnP_cons_pos hc]
      rcases hs : splitOnP p rest with _ | ⟨piece, pieces⟩
      · exact absurd hs (splitOnP_ne_nil p rest)
      · have hp : piece ∈ splitOnP p rest := by
          rw [hs]; exact List.mem_cons_self _ _
        have := length_le_of_mem_splitOnP hp
        simp only [List.getD_cons_succ, List.getD_cons_zero, List.length_cons]
        omega
    · have hrest : rest.any p = true := by
        simp only [List.any_cons, hc, Bool.false_or] at h
        exact h
      rcases hs : splitOnP p rest with _ | ⟨piece, pieces⟩
      · exact absurd hs (splitOnP_ne_nil p rest)
      · have := ih hrest
        rw [hs] at this
        simp only [List.getD_cons_succ, List.getD_cons_zero] at this
        rw [splitOnP_cons_neg hc hs]
        simp only [List.getD_cons_succ, List.getD_cons_zero, List.length_cons]
        omega

/-! ## `mapExcept` (the `collect::<Result<..>>` pattern) -/

lemma mapExcept_congr {f g : α → Except String β} :
    ∀ {l : List α}, (∀ a ∈ l, f a = g a) → mapExcept f l = mapExcept g l := by
  intro l
  induction l with
  | nil => intro _; rfl
  | cons a rest ih =>
    intro h
    simp only [mapExcept]
    rw [h a (List.mem_cons_self _ _), ih (fun x hx => h x (List.mem_cons_of_mem _ hx))]

lemma mapExcept_ok_of_forall {f : α → Except String β} :
    ∀ {l : List α}, (∀ a ∈ l, ∃ b, f a = .ok b) → ∃ bs, mapExcept f l = .ok bs := by
  intro l
  induction l with
  | nil => intro _; exact ⟨[], rfl⟩
  | cons a rest ih =>
    intro h
    obtain ⟨b, hb⟩ := h a (List.mem_cons_self _ _)
    obtain ⟨bs, hbs⟩ := ih (fun x hx => h x (List.mem_cons_of_mem _ hx))
    exact ⟨b :: bs, by simp [mapExcept, hb, hbs]⟩

lemma mapExcept_error_of_mem {f : α → Except String β} {msg : String}
    (hmsg : ∀ x e, f x = .error e → e = msg) :
    ∀ {l : List α} {a : α}, a ∈ l → (∃ e, f a = .error e) → mapExcept f l = .error msg := by
  intro l
  induction l with
  | nil => intro a ha; simp at ha
  | cons b rest ih =>
    intro a ha ⟨e, he⟩
    rcases hb : f b with eb | vb
    · rw [hmsg b eb hb] at hb
      simp [mapExcept, hb]
    · simp only [mapExcept, hb]
      rcases List.mem_cons.mp ha with h1 | h1
      · subst h1
        rw [hb] at he
        exact absurd he (by simp)
      · rw [ih h1 ⟨e, he⟩]

/-! ## The three recursive branches of `parse_type` shrink their input -/

lemma mk_data (l : List Char) : (String.mk l).data = l := rfl

lemma amp_branch_length_lt {s : String} {c : Char} (h : strStartsWithChar s c = true) :
    (trimC (dropLeading c s.data)).length < s.data.length := by
  rcases hd : s.data with _ | ⟨d, t⟩
  · simp [strStartsWithChar, hd] at h
  · have hdc : (d == c) = true := by
      simpa [strStartsWithChar, hd] using h
    have h1 : dropLeading c (d :: t) = t.dropWhile (· == c) := by
      simp [dropLeading, List.dropWhile_cons, hdc]
    have h2 := length_dropWhile_le (· == c) t
    have h3 := length_trimC_le (t.dropWhile (· == c))
    rw [h1]
    simp only [List.length_cons]
    omega

lemma slice_branch_length_lt {s : String} (h : strStartsWithChar s '[' = true) :
    (trimC (sliceC s.data 1 (s.data.length - 1))).length < s.data.length := by
  have hlen : 0 < s.data.length := by
    rcases hd : s.data with _ | ⟨d, t⟩
    · simp [strStartsWithChar, hd] at h
    · simp [hd]
  have h1 : (sliceC s.data 1 (s.data.length - 1)).length ≤ s.data.length - 1 := by
    simp only [sliceC, List.length_take, List.length_drop]
    omega
  have h2 := length_trimC_le (sliceC s.data 1 (s.data.length - 1))
  omega

lemma generic_arg_length_lt {s : String} (h : containsC s '<' = true)
    {q : List Char}
    (hq : q ∈ splitOnP (· == ',')
      (strTrim (String.mk (dropTrailing '>' ((splitOnP (· == '<') s.data).getD 1 [])))).data) :
    (trimC q).length < s.data.length := by
  have h1 := length_le_of_mem_splitOnP hq
  simp only [strTrim_data, mk_data] at h1
  have h3 := length_trimC_le (dropTrailing '>' ((splitOnP (· == '<') s.data).getD 1 []))
  have h4 := length_dropTrailing_le '>' ((splitOnP (· == '<') s.data).getD 1 [])
  have h5 : ((splitOnP (· == '<') s.data).getD 1 []).length < s.data.length :=
    splitOnP_getD_one_length_lt (by simpa [containsC] using h)
  have h6 := length_trimC_le q
  omega

/-! ## Fuel-independence and totality of `parse_type` -/

lemma parse_typeF_congr :
    ∀ (k : Nat) (input : String) (m n : Nat),
      input.data.length ≤ k → input.data.length < m → input.data.length < n →
      Parser.parse_typeF m input = Parser.parse_typeF n input := by
  intro k
  induction k with
  | zero =>
    intro input m n hk hm hn
    rcases m with _ | m'
    · omega
    rcases n with _ | n'
    · omega
    have hdata : input.data = [] := List.length_eq_zero.mp (by omega)
    simp only [Parser.parse_typeF]
    simp [strStartsWithChar, containsC, hdata]
  | succ k ih =>
    intro input m n hk hm hn
    rcases m with _ | m'
    · omega
    rcases n with _ | n'
    · omega
    simp only [Parser.parse_typeF]
    by_cases h1 : strStartsWithChar input '&' = true
    · rw [if_pos h1, if_pos h1]
      have hlt := amp_branch_length_lt h1
      rw [ih (strTrim (String.mk (dropLeading '&' input.data))) m' n'
        (by simp only [strTrim_data, mk_data]; omega)
        (by simp only [strTrim_data, mk_data]; omega)
        (by simp only [strTrim_data, mk_data]; omega)]
    · rw [if_neg h1, if_neg h1]
      by_cases h2 : (strStartsWithChar input '[' && strEndsWithChar input ']') = true
      · rw [if_pos h2, if_pos h2]
        have h2' := h2
        simp only [Bool.and_eq_true] at h2'
        have hlt := slice_branch_length_lt h2'.1
        rw [ih (strTrim (String.mk (sliceC input.data 1 (input.data.length - 1)))) m' n'
          (by simp only [strTrim_data, mk_data]; omega)
          (by simp only [strTrim_data, mk_data]; omega)
          (by simp only [strTrim_data, mk_data]; omega)]
      · rw [if_neg h2, if_neg h2]
        by_cases h3 : (containsC input '<' && containsC input '>') = true
        · rw [if_pos h3, if_pos h3]
          have h3' := h3
          simp only [Bool.and_eq_true] at h3'
          rw [mapExcept_congr (fun a ha => ?_)]
          obtain ⟨q, hq, rfl⟩ := List.mem_map.mp ha
          have hq2 := generic_arg_length_lt h3'.1 hq
          exact ih (strTrim (String.mk q)) m' n'
            (by simp only [strTrim_data, mk_data]; omega)
            (by simp only [strTrim_data, mk_data]; omega)
            (by simp only [strTrim_data, mk_data]; omega)
        · rw [if_neg h3, if_neg h3]

lemma parse_typeF_eq_parse_type {input : String} {n : Nat} (hn : input.data.length < n) :
    Parser.parse_typeF n input = Parser.parse_type input :=
  parse_typeF_congr input.data.length input n (input.data.length + 1) le_rfl hn
    (Nat.lt_succ_self _)

lemma parse_typeF_total :
    ∀ (k : Nat) (input : String) (n : Nat),
      input.data.length ≤ k → input.data.length < n →
      ∃ t, Parser.parse_typeF n input = .ok t := by
  intro k
  induction k with
  | zero =>
    intro input n hk hn
    rcases n with _ | n'
    · omega
    have hdata : input.data = [] := List.length_eq_zero.mp (by omega)
    refine ⟨.Simple input, ?_⟩
    simp only [Parser.parse_typeF]
    simp [strStartsWithChar, containsC, hdata]
  | succ k ih =>
    intro input n hk hn
    rcases n with _ | n'
    · omega
    simp only [Parser.parse_typeF]
    by_cases h1 : strStartsWithChar input '&' = true
    · rw [if_pos h1]
      have hlt := amp_branch_length_lt h1
      obtain ⟨t, ht⟩ := ih (strTrim (String.mk (dropLeading '&' input.data))) n'
        (by simp only [strTrim_data, mk_data]; omega)
        (by simp only [strTrim_data, mk_data]; omega)
      exact ⟨.Reference t, by rw [ht]⟩
    · rw [if_neg h1]
      by_cases h2 : (strStartsWithChar input '[' && strEndsWithChar input ']') = true
      · rw [if_pos h2]
        have h2' := h2
        simp only [Bool.and_eq_true] at h2'
        have hlt := slice_branch_length_lt h2'.1
        obtain ⟨t, ht⟩ := ih (strTrim (String.mk (sliceC input.data 1 (input.data.length - 1)))) n'
          (by simp only [strTrim_data, mk_data]; omega)
          (by simp only [strTrim_data, mk_data]; omega)
        exact ⟨.Generic "[]" [t], by rw [ht]⟩
      · rw [if_neg h2]
        by_cases h3 : (containsC input '<' && containsC input '>') = true
        · rw [if_pos h3]
          have h3' := h3
          simp only [Bool.and_eq_true] at h3'
          have hargs : ∀ a ∈ splitStr (· == ',')
              (strTrim (String.mk (dropTrailing '>' ((splitOnP (· == '<') input.data).getD 1 [])))),
              ∃ b, Parser.parse_typeF n' (strTrim a) = .ok b := by
            intro a ha
            obtain ⟨q, hq, rfl⟩ := List.mem_map.mp ha
            have hq2 := generic_arg_length_lt h3'.1 hq
            exact ih (strTrim (String.mk q)) n'
              (by simp only [strTrim_data, mk_data]; omega)
              (by simp only [strTrim_data, mk_data]; omega)
          obtain ⟨args, hA⟩ := mapExcept_ok_of_forall hargs
          exact ⟨_, by rw [hA]⟩
        · rw [if_neg h3]
          exact ⟨.Simple input, rfl⟩

lemma parse_type_ok (input : String) : ∃ t, Parser.parse_type input = .ok t :=
  parse_typeF_total input.data.length input (input.data.length + 1) le_rfl (Nat.lt_succ_self _)

/-! ## The claims -/

/-- C1: the claim says a payload-bearing enum variant ends up with
`associated_data = AstNode::Struct` with positional or named fields.  The
code instead feeds the payload text to the top-level dispatcher, which
rejects any text that does not start with `pub trait`/`pub struct`/
`pub enum`, so parsing `pub enum Message { Write(String) }` fails with the
unsupported-construct error; the dead helper `parse_tuple_variant` is the
routine that would have produced the claimed positional struct. -/
theorem C1_payload_reparse_fails :
    Parser.parse "pub enum Message \x7b Write(String) \x7d" =
      .error "Unsupported or invalid Rust construct" ∧
    Parser.parse_tuple_variant "String" =
      .ok (.Struct ⟨"", [⟨"0", .Simple "String"⟩]⟩) :=
  ⟨rfl, rfl⟩

/-- C2: the claim (and the repository's own `test_parse_struct`) expects the
trailing-comma struct input to parse into three fields; the code splits the
struct body on `,` without dropping the empty fragment created by the
trailing comma, so that fragment fails the two-piece `:` split and the parse
returns the invalid-field-format error.  Without the trailing comma the same
input parses exactly as claimed. -/
theorem C2_trailing_comma_struct_fails :
    Parser.parse "pub struct Point \x7b x: f64, y: f64, label: String, \x7d" =
      .error "Invalid field format" ∧
    Parser.parse "pub struct Point \x7b x: f64, y: f64, label: String \x7d" =
      .ok (.Struct ⟨"Point",
        [⟨"x", .Simple "f64"⟩, ⟨"y", .Simple "f64"⟩, ⟨"label", .Simple "String"⟩]⟩) :=
  ⟨rfl, rfl⟩

/-- C5: type parser precedence on the three concrete inputs:
`&Vec<i32>` is a reference to a generic, `[u8]` is the reserved `"[]"`
generic, and `&[u8]` is a reference to the reserved `"[]"` generic. -/
theorem C5_type_precedence :
    Parser.parse_type "&Vec<i32>" = .ok (.Reference (.Generic "Vec" [.Simple "i32"])) ∧
    Parser.parse_type "[u8]" = .ok (.Generic "[]" [.Simple "u8"]) ∧
    Parser.parse_type "&[u8]" = .ok (.Reference (.Generic "[]" [.Simple "u8"])) :=
  ⟨rfl, rfl, rfl⟩

/-- C4 (counterexample): the formatter has no bracket-notation special case —
`Generic "[]" [Simple "u8"]` renders as `[]<u8>`, not `[u8]` as the claim
states; and re-parsing the rendered text of the parser-produced node for
`Vec<[u8]>` does not reproduce the node, refuting the round-trip part of the
claim as well. -/
theorem C4_display_counterexample :
    TypeNode.display (.Generic "[]" [.Simple "u8"]) = "[]<u8>" ∧
    TypeNode.display (.Generic "[]" [.Simple "u8"]) ≠ "[u8]" ∧
    Parser.parse_type "Vec<[u8]>" = .ok (.Generic "Vec" [.Generic "[]" [.Simple "u8"]]) ∧
    Parser.parse_type (TypeNode.display (.Generic "Vec" [.Generic "[]" [.Simple "u8"]])) =
      .ok (.Generic "Vec" [.Generic "[]" [.Simple ""]]) ∧
    (TypeNode.Generic "Vec" [.Generic "[]" [.Simple ""]]) ≠
      (TypeNode.Generic "Vec" [.Generic "[]" [.Simple "u8"]]) := by
  refine ⟨rfl, by decide, rfl, rfl, ?_⟩
  intro hcontra
  simp only [TypeNode.Generic.injEq, List.cons.injEq, TypeNode.Simple.injEq,
    and_true, true_and] at hcontra
  exact absurd hcontra (by decide)

/-- C4 (amended): the formatter renders `Reference` with a leading `&` and
every `Generic` — the reserved name `"[]"` included — as
`name<arg, arg, ...>`; re-parsing the rendered text reproduces the original
node for the three precedence-example nodes, though not for every
parser-produced node. -/
theorem C4_display_amended :
    (∀ t : TypeNode, TypeNode.display (.Reference t) = "&" ++ TypeNode.display t) ∧
    (∀ (name : String) (args : List TypeNode),
      TypeNode.display (.Generic name args) =
        name ++ "<" ++ String.intercalate ", " (TypeNode.displayArgs args) ++ ">") ∧
    Parser.parse_type (TypeNode.display (.Reference (.Generic "Vec" [.Simple "i32"]))) =
      .ok (.Reference (.Generic "Vec" [.Simple "i32"])) ∧
    Parser.parse_type (TypeNode.display (.Generic "[]" [.Simple "u8"])) =
      .ok (.Generic "[]" [.Simple "u8"]) ∧
    Parser.parse_type (TypeNode.display (.Reference (.Generic "[]" [.Simple "u8"]))) =
      .ok (.Reference (.Generic "[]" [.Simple "u8"])) :=
  ⟨fun _ => rfl, fun _ _ => rfl, rfl, rfl, rfl⟩

/-- C10: the type-expression parser is total — for every input string
`parse_type` returns `Ok`; every branch bottoms out in the always-succeeding
`Simple` fallback and no branch introduces an error of its own. -/
theorem C10_parse_type_never_fails (input : String) :
    ∃ t, Parser.parse_type input = .ok t :=
  parse_type_ok input

/-- C3 (counterexample): the claimed equation
`parse_type('&' ++ rest) = Reference(parse_type(trim(rest)))` fails at
`rest = "&T"`: the code strips all leading ampersands at once
(`trim_start_matches`), so `&&T` parses to a single `Reference` layer while
the claimed right-hand side has two. -/
theorem C3_counterexample :
    Parser.parse_type "&&T" ≠
      Except.map TypeNode.Reference (Parser.parse_type (strTrim "&T")) := by
  have h1 : Parser.parse_type "&&T" = .ok (.Reference (.Simple "T")) := rfl
  have h2 : Parser.parse_type (strTrim "&T") = .ok (.Reference (.Simple "T")) := rfl
  rw [h1, h2]
  intro hcontra
  simp [Except.map] at hcontra

/-- C3 (amended): for every input starting with `&`, the type parser strips
all leading ampersands at once, trims the remainder, recursively parses it,
and wraps the result in exactly one `Reference` layer — so the claimed
one-ampersand equation holds only when the remainder does not itself start
with `&`, and `n` leading ampersands produce one `Reference`, not `n`. -/
theorem C3_reference_collapse (s : String) (h : strStartsWithChar s '&' = true) :
    Parser.parse_type s =
      Except.map TypeNode.Reference
        (Parser.parse_type (strTrim (String.mk (dropLeading '&' s.data)))) := by
  have hlt := amp_branch_length_lt h
  conv_lhs => rw [Parser.parse_type]
  simp only [Parser.parse_typeF]
  rw [if_pos h]
  rw [parse_typeF_eq_parse_type
    (show (strTrim (String.mk (dropLeading '&' s.data))).data.length < s.data.length by
      simp only [strTrim_data, mk_data]; omega)]
  rcases hres : Parser.parse_type (strTrim (String.mk (dropLeading '&' s.data))) with e | t
  · simp [Except.map]
  · simp [Except.map]

/-- C3 (witness): the amended equation, instantiated at `&i32`. -/
theorem C3_reference_collapse_witness :
    Parser.parse_type "&i32" =
      Except.map TypeNode.Reference
        (Parser.parse_type (strTrim (String.mk (dropLeading '&' "&i32".data)))) :=
  C3_reference_collapse "&i32" (by decide)

/-- C6: parsing `pub enum Color { Red, Green, Blue, }` (trailing comma
included) yields the enum `Color` with exactly the unit variants `Red`,
`Green`, `Blue` in source order; and in general any variant fragment that
does not contain both parentheses is classified as a unit variant whose name
is the fragment text and whose payload is `none`. -/
theorem C6_enum_unit_variants :
    Parser.parse "pub enum Color \x7b Red, Green, Blue, \x7d" =
      .ok (.Enum (.mk "Color" [.mk "Red" none, .mk "Green" none, .mk "Blue" none])) ∧
    (∀ v : String, (containsC v '(' && containsC v ')') = false →
      Parser.parse_variant v = .ok (.mk v none)) := by
  refine ⟨rfl, ?_⟩
  intro v h
  simp only [Parser.parse_variant, Parser.parse_variant_with, h]
  rfl

/-- C6 (witness): the unit-variant rule, instantiated at the fragment
`Quit`. -/
theorem C6_enum_unit_variants_witness :
    Parser.parse_variant "Quit" = .ok (.mk "Quit" none) :=
  C6_enum_unit_variants.2 "Quit" (by decide)

/-- C7: whenever the trimmed input starts with none of `pub trait`,
`pub struct`, `pub enum` (checked in that order), `parse` returns the
unsupported-construct error — a total function, so no panic. -/
theorem C7_dispatch_unsupported (input : String)
    (h1 : strStartsWith (strTrim input) "pub trait" = false)
    (h2 : strStartsWith (strTrim input) "pub struct" = false)
    (h3 : strStartsWith (strTrim input) "pub enum" = false) :
    Parser.parse input = .error "Unsupported or invalid Rust construct" := by
  rw [Parser.parse]
  simp only [Parser.parseF]
  simp [h1, h2, h3]

/-- C7 (witness): `fn standalone_function() {}` is rejected with the
unsupported-construct error. -/
theorem C7_dispatch_unsupported_witness :
    Parser.parse "fn standalone_function() \x7b\x7d" =
      .error "Unsupported or invalid Rust construct" :=
  C7_dispatch_unsupported "fn standalone_function() \x7b\x7d"
    (by decide) (by decide) (by decide)

/-- C8: each declaration parser (trait / struct / enum), given an input whose
third whitespace word (the declaration name) exists, fails with its
missing-body error when `{` is absent, with the missing-closing-brace error
when `{` is present but `}` is absent, and with its invalid-body error when
the last `}` does not lie strictly after the first `{`; when the last `}`
lies strictly after the first `{`, the parser operates exactly on the
trimmed substring between those two positions. -/
theorem C8_body_delimiters (input nm : String)
    (hnm : (wordsOf input).get? 2 = some nm) :
    (findIdxC '\x7b' input.data = none →
      Parser.parse_trait input = .error "Missing trait body" ∧
      Parser.parse_struct input = .error "Missing struct body" ∧
      Parser.parse_enum input = .error "Missing enum body") ∧
    (∀ bs, findIdxC '\x7b' input.data = some bs → rfindIdxC '\x7d' input.data = none →
      Parser.parse_trait input = .error "Missing closing brace" ∧
      Parser.parse_struct input = .error "Missing closing brace" ∧
      Parser.parse_enum input = .error "Missing closing brace") ∧
    (∀ bs be, findIdxC '\x7b' input.data = some bs → rfindIdxC '\x7d' input.data = some be →
      be ≤ bs →
      Parser.parse_trait input = .error "Invalid trait body" ∧
      Parser.parse_struct input = .error "Invalid struct body" ∧
      Parser.parse_enum input = .error "Invalid enum body") ∧
    (∀ bs be, findIdxC '\x7b' input.data = some bs → rfindIdxC '\x7d' input.data = some be →
      bs < be →
      (Parser.parse_trait input =
        match mapExcept Parser.parse_method
            (splitTrimNonempty ';' (strTrim (String.mk (sliceC input.data (bs + 1) be)))) with
        | .ok methods => .ok (.Trait ⟨nm, methods⟩)
        | .error e => .error e) ∧
      (Parser.parse_struct input =
        match mapExcept Parser.parse_field
            (splitStr (· == ',') (strTrim (String.mk (sliceC input.data (bs + 1) be)))) with
        | .ok fields => .ok (.Struct ⟨nm, fields⟩)
        | .error e => .error e) ∧
      (Parser.parse_enum input =
        match mapExcept (Parser.parse_variant_with Parser.parse)
            (splitTrimNonempty ',' (strTrim (String.mk (sliceC input.data (bs + 1) be)))) with
        | .ok variants => .ok (.Enum (.mk nm variants))
        | .error e => .error e)) := by
  refine ⟨?_, ?_, ?_, ?_⟩
  · intro hb
    exact ⟨by simp only [Parser.parse_trait, hnm, hb],
      by simp only [Parser.parse_struct, hnm, hb],
      by simp only [Parser.parse_enum, Parser.parse_enum_with, hnm, hb]⟩
  · intro bs hbs hbn
    exact ⟨by simp only [Parser.parse_trait, hnm, hbs, hbn],
      by simp only [Parser.parse_struct, hnm, hbs, hbn],
      by simp only [Parser.parse_enum, Parser.parse_enum_with, hnm, hbs, hbn]⟩
  · intro bs be hbs hbe hle
    refine ⟨?_, ?_, ?_⟩
    · simp only [Parser.parse_trait, hnm, hbs, hbe]
      rw [if_pos hle]
    · simp only [Parser.parse_struct, hnm, hbs, hbe]
      rw [if_pos hle]
    · simp only [Parser.parse_enum, Parser.parse_enum_with, hnm, hbs, hbe]
      rw [if_pos hle]
  · intro bs be hbs hbe hlt
    refine ⟨?_, ?_, ?_⟩
    · simp only [Parser.parse_trait, hnm, hbs, hbe]
      rw [if_neg (by omega)]
    · simp only [Parser.parse_struct, hnm, hbs, hbe]
      rw [if_neg (by omega)]
    · simp only [Parser.parse_enum, Parser.parse_enum_with, hnm, hbs, hbe]
      rw [if_neg (by omega)]

/-- C8 (witness): on `pub trait Foo` (name present, no braces at all) each of
the three declaration parsers reports its missing-body error. -/
theorem C8_body_delimiters_witness :
    Parser.parse_trait "pub trait Foo" = .error "Missing trait body" ∧
    Parser.parse_struct "pub trait Foo" = .error "Missing struct body" ∧
    Parser.parse_enum "pub trait Foo" = .error "Missing enum body" :=
  (C8_body_delimiters "pub trait Foo" "Foo" (by decide)).1 (by decide)

/-- Every error produced by the parameter-classification closure carries the
invalid-parameter-format message: the only error branch of its own is the
two-piece `:` split check, and the recursive type parse never fails. -/
lemma parse_param_error_msg {p e : String}
    (h : Parser.parse_param p = .error e) : e = "Invalid parameter format" := by
  simp only [Parser.parse_param] at h
  by_cases h1 : strTrim p = "&self"
  · rw [if_pos h1] at h
    exact absurd h (by simp)
  · rw [if_neg h1] at h
    by_cases h2 : strTrim p = "self"
    · rw [if_pos h2] at h
      exact absurd h (by simp)
    · rw [if_neg h2] at h
      by_cases h3 : (splitOnP (· == ':') (strTrim p).data).length = 2
      · rw [if_neg (by omega)] at h
        obtain ⟨t, ht⟩ := parse_type_ok
          (strTrim (String.mk ((splitOnP (· == ':') (strTrim p).data).getD 1 [])))
        rw [ht] at h
        exact absurd h (by simp)
      · rw [if_pos h3] at h
        simp only [Except.error.injEq] at h
        exact h.symm

/-- C9: the parameter parser maps whitespace-only text to the empty
sequence and otherwise classifies the comma-separated fragments: the trimmed
literal `&self` becomes a receiver of type `Reference(Simple "self")`, the
trimmed literal `self` a receiver of type `Simple "self"`, any other
fragment whose trimmed text splits into exactly two `:`-pieces becomes a
named parameter with the parsed type, and a fragment that does not splits
makes the whole call fail with the invalid-parameter-format error. -/
theorem C9_param_classification :
    (∀ s : String, strTrim s = "" → Parser.parse_params s = .ok []) ∧
    (∀ s : String, strTrim s ≠ "" →
      Parser.parse_params s = mapExcept Parser.parse_param (splitStr (· == ',') s)) ∧
    (∀ p : String, strTrim p = "&self" →
      Parser.parse_param p = .ok ⟨"&self", .Reference (.Simple "self")⟩) ∧
    (∀ p : String, strTrim p = "self" →
      Parser.parse_param p = .ok ⟨"self", .Simple "self"⟩) ∧
    (∀ p : String, strTrim p ≠ "&self" → strTrim p ≠ "self" →
      (splitOnP (· == ':') (strTrim p).data).length = 2 →
      ∃ t, Parser.parse_type (strTrim (String.mk ((splitOnP (· == ':') (strTrim p).data).getD 1 []))) = .ok t ∧
        Parser.parse_param p =
          .ok ⟨strTrim (String.mk ((splitOnP (· == ':') (strTrim p).data).getD 0 [])), t⟩) ∧
    (∀ s : String, strTrim s ≠ "" → ∀ p ∈ splitStr (· == ',') s,
      strTrim p ≠ "&self" → strTrim p ≠ "self" →
      (splitOnP (· == ':') (strTrim p).data).length ≠ 2 →
      Parser.parse_params s = .error "Invalid parameter format") := by
  refine ⟨?_, ?_, ?_, ?_, ?_, ?_⟩
  · intro s hs
    simp only [Parser.parse_params]
    rw [if_pos hs]
  · intro s hs
    simp only [Parser.parse_params]
    rw [if_neg hs]
  · intro p h1
    simp only [Parser.parse_param]
    rw [if_pos h1]
  · intro p h2
    simp only [Parser.parse_param]
    rw [if_neg (by rw [h2]; decide), if_pos h2]
  · intro p h1 h2 h3
    obtain ⟨t, ht⟩ := parse_type_ok
      (strTrim (String.mk ((splitOnP (· == ':') (strTrim p).data).getD 1 [])))
    refine ⟨t, ht, ?_⟩
    simp only [Parser.parse_param]
    rw [if_neg h1, if_neg h2, if_neg (by omega), ht]
  · intro s hs p hp h1 h2 h3
    have hperr : Parser.parse_param p = .error "Invalid parameter format" := by
      simp only [Parser.parse_param]
      rw [if_neg h1, if_neg h2, if_pos h3]
    simp only [Parser.parse_params]
    rw [if_neg hs]
    exact mapExcept_error_of_mem (fun x e hx => parse_param_error_msg hx) hp ⟨_, hperr⟩

/-- C9 (witness): the whole call fails on the colon-less fragment `x y`. -/
theorem C9_param_classification_witness :
    Parser.parse_params "x y" = .error "Invalid parameter format" :=
  C9_param_classification.2.2.2.2.2 "x y" (by decide) "x y" (by decide)
    (by decide) (by decide) (by decide)
